import Mathlib

/-!
Shallow embedding of `optimizer.py` (package `toptim`).

Real numbers are modelled as `ℚ`; numpy 1-D arrays as `List ℚ`.  The numeric
literals of the source (`_big_number = 9e99`, `_small_number = 1e-6`) are the
exact rationals `9 * 10 ^ 99` and `1 / 10 ^ 6`.

External collaborators are modelled as function parameters:
`calculate_strain_energy_density` / `field_calculator` as `List ℚ → ℚ`-valued
functions and `scipy.optimize.fsolve` (an external library routine) through
the scalar `lam` it returns, which `FullyStressDesignUpdater.updateParameters`
takes as an explicit argument.
-/

namespace Toptim

/-- The literal `_big_number = 9e99` from the source. -/
def big_number : ℚ := 9 * 10 ^ 99

/-- The literal `_small_number = 1e-6` from the source. -/
def small_number : ℚ := 1 / 10 ^ 6

/-- A bound / correction argument as accepted by `ParametersSet._clip` and
`ParametersSet.change`: `None`, a scalar, or a per-component array
(`_to_limit_array` distinguishes exactly these three shapes). -/
inductive Lim where
  | none : Lim
  | scalar : ℚ → Lim
  | arr : List ℚ → Lim
deriving DecidableEq

/-- A bound argument that is a scalar or an array but not `None`, as required
by `ParametersSet.clip_softly` (whose `np.subtract(self._data, lower)` call
rejects `None`). -/
inductive BLim where
  | scalar : ℚ → BLim
  | arr : List ℚ → BLim
deriving DecidableEq

/-- Forget that a `BLim` is not `None`. -/
def BLim.toLim : BLim → Lim
  | .scalar q => .scalar q
  | .arr qs => .arr qs

/-- The value a `Lim` contributes at index `i`, with `extreme` standing for
the fill value used when the limit is `None`. -/
def Lim.component (l : Lim) (extreme : ℚ) (i : ℕ) : ℚ :=
  match l with
  | .none => extreme
  | .scalar q => q
  | .arr qs => qs.getD i 0

/-- The value a `BLim` contributes at index `i`. -/
def BLim.component (b : BLim) (i : ℕ) : ℚ :=
  match b with
  | .scalar q => q
  | .arr qs => qs.getD i 0

/-- Well-formedness of an array-shaped limit: its length matches the data. -/
def Lim.len_ok (l : Lim) (n : ℕ) : Prop :=
  match l with
  | .none => True
  | .scalar _ => True
  | .arr qs => qs.length = n

/-- Well-formedness of an array-shaped bound: its length matches the data. -/
def BLim.len_ok (b : BLim) (n : ℕ) : Prop :=
  match b with
  | .scalar _ => True
  | .arr qs => qs.length = n

/-- Source class `ParametersSet`: wraps the numpy array `self._data`; the `values`
property returns it. -/
structure ParametersSet where
  values : List ℚ
deriving DecidableEq

/-- Source method `ParametersSet._to_limit_array(item, extreme)`: a scalar (or, for `None`,
the `extreme` sentinel) is broadcast to the shape of `self._data`; an array
is taken as given. -/
def ParametersSet.toLimitArray (p : ParametersSet) (item : Lim) (extreme : ℚ) :
    List ℚ :=
  match item with
  | .none => List.replicate p.values.length extreme
  | .scalar q => List.replicate p.values.length q
  | .arr qs => qs

/-- Source method `ParametersSet._clip(data, lower, upper)`:
`np.maximum(toLimit(lower, -big), np.minimum(toLimit(upper, big), data))`. -/
def ParametersSet.clipData (p : ParametersSet) (data : List ℚ)
    (lower upper : Lim) : List ℚ :=
  List.zipWith max (p.toLimitArray lower (-big_number))
    (List.zipWith min (p.toLimitArray upper big_number) data)

/-- Source method `ParametersSet._reduce_changes(values, max_correction)`: when
`max_correction` is `None` the limits passed to `_clip` are `None`
(via `none_or_call`); otherwise they are `self._data - max_correction`
and `self._data + max_correction`, with numpy broadcasting for a scalar
`max_correction`. -/
def ParametersSet.reduceChanges (p : ParametersSet) (values : List ℚ)
    (max_correction : Lim) : List ℚ :=
  match max_correction with
  | .none => p.clipData values .none .none
  | .scalar q =>
      p.clipData values (.arr (p.values.map (fun x => x - q)))
        (.arr (p.values.map (fun x => x + q)))
  | .arr qs =>
      p.clipData values (.arr (List.zipWith (fun x y => x - y) p.values qs))
        (.arr (List.zipWith (fun x y => x + y) p.values qs))

/-- Source method `ParametersSet.change(values, max_correction=None)`. -/
def ParametersSet.change (p : ParametersSet) (values : List ℚ)
    (max_correction : Lim) : ParametersSet :=
  ⟨p.reduceChanges values max_correction⟩

/-- Source method `ParametersSet.clip(lower=None, upper=None)`. -/
def ParametersSet.clip (p : ParametersSet) (lower upper : Lim) : ParametersSet :=
  ⟨p.clipData p.values lower upper⟩

/-- Broadcasting `np.subtract(data, b)` for a scalar-or-array second operand. -/
def broadcastSub (data : List ℚ) (b : BLim) : List ℚ :=
  match b with
  | .scalar q => data.map (fun x => x - q)
  | .arr qs => List.zipWith (fun x y => x - y) data qs

/-- Source method `ParametersSet.clip_softly(lower, upper, softening_ratio)`: the hard clip
plus `softening_ratio` times the negative part of `data - lower` (itself
clipped to `[-big, 0]`) and the positive part of `data - upper` (clipped to
`[0, big]`). -/
def ParametersSet.clip_softly (p : ParametersSet) (lower upper : BLim)
    (softening_ratio : ℚ) : ParametersSet :=
  let clipped := p.clipData p.values lower.toLim upper.toLim
  let negative_exceeding :=
    (broadcastSub p.values lower).map
      (fun x => min 0 (max (-big_number) x) * softening_ratio)
  let positive_exceeding :=
    (broadcastSub p.values upper).map
      (fun x => min big_number (max 0 x) * softening_ratio)
  ⟨List.zipWith (fun x y => x + y)
    (List.zipWith (fun x y => x + y) clipped negative_exceeding)
    positive_exceeding⟩

/-- The object a `ParametersSet` can be compared against with `==`: another
`ParametersSet`, or anything else. -/
inductive PyOperand where
  | pset : ParametersSet → PyOperand
  | nonpset : PyOperand

/-- Comparison `np.all(a == b)` for 1-D arrays, including numpy length-1 broadcasting;
non-broadcastable shapes compare as `False`. -/
def npAllEq (a b : List ℚ) : Bool :=
  if a.length = b.length then
    (List.zipWith (fun x y => decide (x = y)) a b).all id
  else if a.length = 1 then
    b.all (fun y => decide (a.getD 0 0 = y))
  else if b.length = 1 then
    a.all (fun x => decide (x = b.getD 0 0))
  else
    false

/-- Source method `ParametersSet.__eq__`: component comparison against another
`ParametersSet`, `raise NotImplementedError` against anything else
(modelled as `Except.error`). -/
def ParametersSet.pyEq (p : ParametersSet) : PyOperand → Except Unit Bool
  | .pset q => .ok (npAllEq p.values q.values)
  | .nonpset => .error ()

/-- Class attribute `FullyStressDesignUpdater._bounds_softening = 1e-6`. -/
def bounds_softening : ℚ := small_number

/-- Source class `FullyStressDesignUpdater`: the engine's configuration. -/
structure FullyStressDesignUpdater where
  calculate_exceeded_volume : List ℚ → ℚ
  max_correction : Lim
  bounds : BLim × BLim

/-- Constructor `FullyStressDesignUpdater.__init__`: `self._bounds = bounds or
self._default_bounds`, the default being `(1e-6, 1 - 1e-6)`. -/
def FullyStressDesignUpdater.make (calculate_exceeded_volume : List ℚ → ℚ)
    (max_correction : Lim) (bounds : Option (BLim × BLim)) :
    FullyStressDesignUpdater :=
  ⟨calculate_exceeded_volume, max_correction,
    bounds.getD (BLim.scalar small_number, BLim.scalar (1 - small_number))⟩

/-- The intermediate `updated` of `update_parameters`:
`initial.change(np.multiply(initial.values, np.abs(field)),
max_correction=self._max_correction)`. -/
def FullyStressDesignUpdater.scaledCandidate (e : FullyStressDesignUpdater)
    (initial : ParametersSet) (field : List ℚ) : ParametersSet :=
  initial.change
    (List.zipWith (fun x y => x * y) initial.values (field.map (fun x => |x|)))
    e.max_correction

/-- Source method `FullyStressDesignUpdater.update_parameters(initial, field)`.  The scalar
`lam` is the value returned by the external root-finder
(`scipy.optimize.fsolve` inside `_estimate_lambda`); the final step is
`initial.change(np.divide(updated.values, lam))` — with no `max_correction`
argument — followed by the hard `clip(*self._bounds)`. -/
def FullyStressDesignUpdater.updateParameters (e : FullyStressDesignUpdater)
    (lam : ℚ) (initial : ParametersSet) (field : List ℚ) : ParametersSet :=
  let updated := e.scaledCandidate initial field
  (initial.change (updated.values.map (fun x => x / lam)) .none).clip
    e.bounds.1.toLim e.bounds.2.toLim

/-- One body of `Optimizer.solve`'s loop before the convergence test:
`field = field_calculator(current.values);
new_parameters = engine.update_parameters(current, field)`.  The engine is
abstracted as the function `upd`, the field calculator as `f`. -/
def Optimizer.step (f : List ℚ → List ℚ)
    (upd : ParametersSet → List ℚ → ParametersSet) (p : ParametersSet) :
    ParametersSet :=
  upd p (f p.values)

/-- Squared Euclidean norm.  `ℚ` has no square root, so the source's
`np.linalg.norm(v) < accuracy` is encoded as
`0 < accuracy ∧ normSq v < accuracy ^ 2`, which is equivalent over the reals
(`‖v‖ ≥ 0`, and squaring is monotone on nonnegatives). -/
def normSq (xs : List ℚ) : ℚ :=
  (xs.map (fun x => x * x)).sum

/-- Source method `Optimizer._check_convergence(old, new)`:
`np.linalg.norm(np.subtract(new, old)) < accuracy`, in the squared encoding
described at `normSq`. -/
def checkConvergence (accuracy : ℚ) (old new : List ℚ) : Bool :=
  decide (0 < accuracy ∧
    normSq (List.zipWith (fun a b => a - b) new old) < accuracy * accuracy)

/-- Source method `Optimizer.solve`, fuelled: returns `Option.none` when the loop has not
converged within `fuel` iterations (the source loop is unbounded), and
otherwise the pair of the final `self._parameters_set` (which the loop does
NOT advance on the terminal step) and the returned `new_parameters`. -/
def Optimizer.solveAux (f : List ℚ → List ℚ)
    (upd : ParametersSet → List ℚ → ParametersSet) (accuracy : ℚ) :
    ℕ → ParametersSet → Option (ParametersSet × ParametersSet)
  | 0, _ => Option.none
  | fuel + 1, current =>
      let new_parameters := Optimizer.step f upd current
      if checkConvergence accuracy current.values new_parameters.values then
        some (current, new_parameters)
      else
        Optimizer.solveAux f upd accuracy fuel new_parameters

/-- The iteration sequence `current_0 = initial`,
`current_{k+1} = step current_k`. -/
def Optimizer.trajectory (f : List ℚ → List ℚ)
    (upd : ParametersSet → List ℚ → ParametersSet) (init : ParametersSet) :
    ℕ → ParametersSet
  | 0 => init
  | k + 1 => Optimizer.step f upd (Optimizer.trajectory f upd init k)

/-- Source property `Optimizer.parameters`: the property returning
`self._parameters_set.values`. -/
def Optimizer.parameters (parameters_set : ParametersSet) : List ℚ :=
  parameters_set.values

/-! ### Component-access helper lemmas -/

theorem getD_zipWith (f : ℚ → ℚ → ℚ) {as bs : List ℚ} {i : ℕ}
    (ha : i < as.length) (hb : i < bs.length) :
    (List.zipWith f as bs).getD i 0 = f (as.getD i 0) (bs.getD i 0) := by
  have hlen : i < (List.zipWith f as bs).length := by
    rw [List.length_zipWith]; exact lt_min ha hb
  rw [List.getD_eq_getElem _ _ hlen, List.getD_eq_getElem _ _ ha,
    List.getD_eq_getElem _ _ hb, List.getElem_zipWith]

theorem getD_map (f : ℚ → ℚ) {as : List ℚ} {i : ℕ} (ha : i < as.length) :
    (as.map f).getD i 0 = f (as.getD i 0) := by
  have hlen : i < (as.map f).length := by simpa using ha
  rw [List.getD_eq_getElem _ _ hlen, List.getD_eq_getElem _ _ ha, List.getElem_map]

theorem getD_replicate {n i : ℕ} {q : ℚ} (h : i < n) :
    (List.replicate n q).getD i 0 = q := by
  have hlen : i < (List.replicate n q).length := by simpa using h
  rw [List.getD_eq_getElem _ _ hlen, List.getElem_replicate]

theorem BLim.toLim_len_ok {b : BLim} {n : ℕ} (h : b.len_ok n) : b.toLim.len_ok n := by
  cases b <;> simpa [BLim.toLim, BLim.len_ok, Lim.len_ok] using h

theorem BLim.toLim_component (b : BLim) (e : ℚ) (i : ℕ) :
    b.toLim.component e i = b.component i := by
  cases b <;> rfl

theorem toLimitArray_length (p : ParametersSet) (l : Lim) (e : ℚ)
    (h : l.len_ok p.values.length) :
    (p.toLimitArray l e).length = p.values.length := by
  cases l <;> simpa [ParametersSet.toLimitArray, Lim.len_ok] using h

theorem toLimitArray_getD (p : ParametersSet) (l : Lim) (e : ℚ) {i : ℕ}
    (hl : l.len_ok p.values.length) (h : i < p.values.length) :
    (p.toLimitArray l e).getD i 0 = l.component e i := by
  cases l with
  | none => exact getD_replicate h
  | scalar q => exact getD_replicate h
  | arr qs => rfl

theorem clipData_length (p : ParametersSet) (data : List ℚ) (lower upper : Lim)
    (hlo : lower.len_ok p.values.length) (hhi : upper.len_ok p.values.length)
    (hd : data.length = p.values.length) :
    (p.clipData data lower upper).length = p.values.length := by
  simp [ParametersSet.clipData, List.length_zipWith,
    toLimitArray_length p _ _ hlo, toLimitArray_length p _ _ hhi, hd]

theorem clipData_getD (p : ParametersSet) (data : List ℚ) (lower upper : Lim)
    (hlo : lower.len_ok p.values.length) (hhi : upper.len_ok p.values.length)
    (hd : data.length = p.values.length) {i : ℕ} (h : i < p.values.length) :
    (p.clipData data lower upper).getD i 0 =
      max (lower.component (-big_number) i)
        (min (upper.component big_number i) (data.getD i 0)) := by
  have h1 : i < (p.toLimitArray lower (-big_number)).length := by
    rw [toLimitArray_length p _ _ hlo]; exact h
  have h2 : i < (p.toLimitArray upper big_number).length := by
    rw [toLimitArray_length p _ _ hhi]; exact h
  have h3 : i < data.length := by rw [hd]; exact h
  have h4 : i < (List.zipWith min (p.toLimitArray upper big_number) data).length := by
    rw [List.length_zipWith]; exact lt_min h2 h3
  rw [ParametersSet.clipData, getD_zipWith max h1 h4, getD_zipWith min h2 h3,
    toLimitArray_getD p _ _ hlo h, toLimitArray_getD p _ _ hhi h]

theorem reduceChanges_length (p : ParametersSet) (values : List ℚ) (mc : Lim)
    (hmc : mc.len_ok p.values.length) (hv : values.length = p.values.length) :
    (p.reduceChanges values mc).length = p.values.length := by
  cases mc with
  | none => exact clipData_length p values _ _ trivial trivial hv
  | scalar q =>
      exact clipData_length p values _ _ (by simp [Lim.len_ok]) (by simp [Lim.len_ok]) hv
  | arr qs =>
      have hq : qs.length = p.values.length := hmc
      refine clipData_length p values _ _ ?_ ?_ hv <;>
        simp [Lim.len_ok, List.length_zipWith, hq]

/-- Component formula for `change` when `max_correction` is a scalar or a
per-component array. -/
theorem reduceChanges_getD_of_BLim (p : ParametersSet) (values : List ℚ) (b : BLim)
    (hb : b.len_ok p.values.length) (hv : values.length = p.values.length)
    {i : ℕ} (h : i < p.values.length) :
    (p.reduceChanges values b.toLim).getD i 0 =
      max (p.values.getD i 0 - b.component i)
        (min (p.values.getD i 0 + b.component i) (values.getD i 0)) := by
  cases b with
  | scalar q =>
      rw [BLim.toLim, ParametersSet.reduceChanges,
        clipData_getD p values _ _ (by simp [Lim.len_ok]) (by simp [Lim.len_ok]) hv h]
      simp only [Lim.component, BLim.component]
      rw [getD_map _ h, getD_map _ h]
  | arr qs =>
      have hql : qs.length = p.values.length := hb
      have hq : i < qs.length := by rw [hql]; exact h
      rw [BLim.toLim, ParametersSet.reduceChanges,
        clipData_getD p values _ _ ?_ ?_ hv h]
      · simp only [Lim.component, BLim.component]
        rw [getD_zipWith _ h hq, getD_zipWith _ h hq]
      · simp [Lim.len_ok, List.length_zipWith, hql]
      · simp [Lim.len_ok, List.length_zipWith, hql]

theorem normSq_zipWith_sub_self (v : List ℚ) :
    normSq (List.zipWith (fun a b => a - b) v v) = 0 := by
  induction v with
  | nil => rfl
  | cons x xs ih => simpa [normSq, List.zipWith_cons_cons] using ih

theorem ParametersSet.ext_values {p q : ParametersSet} (h : p.values = q.values) :
    p = q := by
  cases p; cases q; cases h; rfl

theorem big_number_pos : 0 < big_number := by norm_num [big_number]

theorem clip_length (p : ParametersSet) (lower upper : Lim)
    (hlo : lower.len_ok p.values.length) (hhi : upper.len_ok p.values.length) :
    (p.clip lower upper).values.length = p.values.length :=
  clipData_length p p.values lower upper hlo hhi rfl

theorem clip_getD (p : ParametersSet) (lower upper : Lim)
    (hlo : lower.len_ok p.values.length) (hhi : upper.len_ok p.values.length)
    {i : ℕ} (h : i < p.values.length) :
    (p.clip lower upper).values.getD i 0 =
      max (lower.component (-big_number) i)
        (min (upper.component big_number i) (p.values.getD i 0)) :=
  clipData_getD p p.values lower upper hlo hhi rfl h

theorem broadcastSub_length (data : List ℚ) (b : BLim) (hb : b.len_ok data.length) :
    (broadcastSub data b).length = data.length := by
  cases b with
  | scalar q => simp [broadcastSub]
  | arr qs =>
      have hql : qs.length = data.length := hb
      simp [broadcastSub, List.length_zipWith, hql]

theorem broadcastSub_getD (data : List ℚ) (b : BLim) (hb : b.len_ok data.length)
    {i : ℕ} (h : i < data.length) :
    (broadcastSub data b).getD i 0 = data.getD i 0 - b.component i := by
  cases b with
  | scalar q => exact getD_map _ h
  | arr qs =>
      have hql : qs.length = data.length := hb
      exact getD_zipWith _ h (by rw [hql]; exact h)

/-- Component formula for `clip_softly`. -/
theorem clip_softly_getD (p : ParametersSet) (lower upper : BLim) (r : ℚ)
    (hlo : lower.len_ok p.values.length) (hhi : upper.len_ok p.values.length)
    {i : ℕ} (h : i < p.values.length) :
    (p.clip_softly lower upper r).values.getD i 0 =
      max (lower.component i) (min (upper.component i) (p.values.getD i 0)) +
        min 0 (max (-big_number) (p.values.getD i 0 - lower.component i)) * r +
        min big_number (max 0 (p.values.getD i 0 - upper.component i)) * r := by
  have hclip : (p.clipData p.values lower.toLim upper.toLim).length = p.values.length :=
    clipData_length p p.values _ _ (BLim.toLim_len_ok hlo) (BLim.toLim_len_ok hhi) rfl
  have hneg : ((broadcastSub p.values lower).map
      (fun x => min 0 (max (-big_number) x) * r)).length = p.values.length := by
    simp [broadcastSub_length p.values lower hlo]
  have hpos : ((broadcastSub p.values upper).map
      (fun x => min big_number (max 0 x) * r)).length = p.values.length := by
    simp [broadcastSub_length p.values upper hhi]
  have h1 : i < (p.clipData p.values lower.toLim upper.toLim).length := by
    rw [hclip]; exact h
  have h2 : i < ((broadcastSub p.values lower).map
      (fun x => min 0 (max (-big_number) x) * r)).length := by rw [hneg]; exact h
  have h3 : i < ((broadcastSub p.values upper).map
      (fun x => min big_number (max 0 x) * r)).length := by rw [hpos]; exact h
  have h12 : i < (List.zipWith (fun x y => x + y)
      (p.clipData p.values lower.toLim upper.toLim)
      ((broadcastSub p.values lower).map
        (fun x => min 0 (max (-big_number) x) * r))).length := by
    rw [List.length_zipWith]; exact lt_min h1 h2
  show (List.zipWith (fun x y => x + y) (List.zipWith (fun x y => x + y) _ _) _).getD i 0 = _
  rw [getD_zipWith _ h12 h3, getD_zipWith _ h1 h2,
    clipData_getD p p.values _ _ (BLim.toLim_len_ok hlo) (BLim.toLim_len_ok hhi) rfl h,
    getD_map _ (by rw [broadcastSub_length p.values lower hlo]; exact h),
    getD_map _ (by rw [broadcastSub_length p.values upper hhi]; exact h),
    broadcastSub_getD p.values lower hlo h, broadcastSub_getD p.values upper hhi h,
    BLim.toLim_component, BLim.toLim_component]

/-- The iteration sequence started at `step init` is the tail of the one
started at `init`. -/
theorem trajectory_succ_shift (f : List ℚ → List ℚ)
    (upd : ParametersSet → List ℚ → ParametersSet) (init : ParametersSet) (k : ℕ) :
    Optimizer.trajectory f upd init (k + 1) =
      Optimizer.trajectory f upd (Optimizer.step f upd init) k := by
  induction k with
  | zero => rfl
  | succ k ih => rw [Optimizer.trajectory, ih, Optimizer.trajectory]

/-! ### Claim theorems -/

/-- Claim C5: `change(new_values, max_correction)` clamps each component into
`[old_i - max_correction_i, old_i + max_correction_i]` — so no component ever
differs from the prior value by more than `max_correction` (scalar or
per-component, nonnegative) — and on prior values `[1, 2, 0, 0.1, 0.2]`, new
values `[-1, 0.5, 2, 0.1, 0.25]` and scalar `max_correction = 0.1` it returns
`[0.9, 1.9, 0.1, 0.1, 0.25]`. -/
theorem change_delta_limit_C5 :
    (∀ (p : ParametersSet) (values : List ℚ) (b : BLim),
      values.length = p.values.length →
      b.len_ok p.values.length →
      (∀ i, i < p.values.length → 0 ≤ b.component i) →
      ∀ i, i < p.values.length →
        (p.values.getD i 0 - b.component i ≤ (p.change values b.toLim).values.getD i 0 ∧
          (p.change values b.toLim).values.getD i 0 ≤ p.values.getD i 0 + b.component i) ∧
        |(p.change values b.toLim).values.getD i 0 - p.values.getD i 0| ≤ b.component i) ∧
    ((ParametersSet.mk [1, 2, 0, 1/10, 2/10]).change [-1, 1/2, 2, 1/10, 1/4]
      (Lim.scalar (1/10))).values = [9/10, 19/10, 1/10, 1/10, 1/4] := by
  constructor
  · intro p values b hv hb hnn i h
    have hres : (p.change values b.toLim).values.getD i 0 =
        max (p.values.getD i 0 - b.component i)
          (min (p.values.getD i 0 + b.component i) (values.getD i 0)) :=
      reduceChanges_getD_of_BLim p values b hb hv h
    have h1 : p.values.getD i 0 - b.component i ≤
        (p.change values b.toLim).values.getD i 0 := by
      rw [hres]; exact le_max_left _ _
    have h2 : (p.change values b.toLim).values.getD i 0 ≤
        p.values.getD i 0 + b.component i := by
      rw [hres]
      exact max_le (by linarith [hnn i h]) (min_le_left _ _)
    exact ⟨⟨h1, h2⟩, abs_le.mpr ⟨by linarith, by linarith⟩⟩
  · norm_num [ParametersSet.change, ParametersSet.reduceChanges, ParametersSet.clipData,
      ParametersSet.toLimitArray]

/-- Witness for C5 at prior `[1]`, target `[5]`, scalar `max_correction = 2`. -/
theorem change_delta_limit_C5_witness :
    (1 - 2 ≤ ((ParametersSet.mk [(1:ℚ)]).change [5]
        (BLim.scalar 2).toLim).values.getD 0 0 ∧
      ((ParametersSet.mk [(1:ℚ)]).change [5]
        (BLim.scalar 2).toLim).values.getD 0 0 ≤ 1 + 2) ∧
    |((ParametersSet.mk [(1:ℚ)]).change [5]
        (BLim.scalar 2).toLim).values.getD 0 0 - 1| ≤ 2 := by
  have key := change_delta_limit_C5.1 (ParametersSet.mk [(1:ℚ)]) [5] (BLim.scalar 2)
    (by norm_num) trivial (by intro i h; norm_num [BLim.component]) 0 (by norm_num)
  simpa [BLim.component] using key

/-- Claim C6: `clip(lower, upper)` (scalar or per-component bounds with
`lower ≤ upper`) returns components inside `[lower_i, upper_i]`, leaves
in-bounds components unchanged, and is the identity on a vector already
entirely within the bounds. -/
theorem clip_correct_C6 :
    ∀ (p : ParametersSet) (lo hi : BLim),
      lo.len_ok p.values.length → hi.len_ok p.values.length →
      (∀ i, i < p.values.length → lo.component i ≤ hi.component i) →
      (∀ i, i < p.values.length →
        lo.component i ≤ (p.clip lo.toLim hi.toLim).values.getD i 0 ∧
        (p.clip lo.toLim hi.toLim).values.getD i 0 ≤ hi.component i) ∧
      (∀ i, i < p.values.length →
        lo.component i ≤ p.values.getD i 0 → p.values.getD i 0 ≤ hi.component i →
        (p.clip lo.toLim hi.toLim).values.getD i 0 = p.values.getD i 0) ∧
      ((∀ i, i < p.values.length →
          lo.component i ≤ p.values.getD i 0 ∧ p.values.getD i 0 ≤ hi.component i) →
        p.clip lo.toLim hi.toLim = p) := by
  intro p lo hi hlo hhi hle
  have hres : ∀ i, i < p.values.length →
      (p.clip lo.toLim hi.toLim).values.getD i 0 =
        max (lo.component i) (min (hi.component i) (p.values.getD i 0)) := by
    intro i h
    rw [clip_getD p _ _ (BLim.toLim_len_ok hlo) (BLim.toLim_len_ok hhi) h,
      BLim.toLim_component, BLim.toLim_component]
  have hid : ∀ i, i < p.values.length →
      lo.component i ≤ p.values.getD i 0 → p.values.getD i 0 ≤ hi.component i →
      (p.clip lo.toLim hi.toLim).values.getD i 0 = p.values.getD i 0 := by
    intro i h h1 h2
    rw [hres i h, min_eq_right h2, max_eq_right h1]
  refine ⟨?_, hid, ?_⟩
  · intro i h
    rw [hres i h]
    exact ⟨le_max_left _ _, max_le (hle i h) (min_le_left _ _)⟩
  · intro hin
    apply ParametersSet.ext_values
    have hlen : (p.clip lo.toLim hi.toLim).values.length = p.values.length :=
      clip_length p _ _ (BLim.toLim_len_ok hlo) (BLim.toLim_len_ok hhi)
    refine List.ext_getElem hlen ?_
    intro n h1 h2
    have h3 : n < p.values.length := by rw [← hlen]; exact h1
    rw [← List.getD_eq_getElem _ 0 h1, ← List.getD_eq_getElem _ 0 h2]
    exact hid n h3 (hin n h3).1 (hin n h3).2

/-- Witness for C6 at vector `[0, -1, 2, 3]` clipped to scalar bounds
`[1/2, 5/2]`. -/
theorem clip_correct_C6_witness :
    (1/2 ≤ ((ParametersSet.mk [(0:ℚ), -1, 2, 3]).clip (BLim.scalar (1/2)).toLim
        (BLim.scalar (5/2)).toLim).values.getD 0 0 ∧
      ((ParametersSet.mk [(0:ℚ), -1, 2, 3]).clip (BLim.scalar (1/2)).toLim
        (BLim.scalar (5/2)).toLim).values.getD 0 0 ≤ 5/2) ∧
    (ParametersSet.mk [(1:ℚ), 2]).clip (BLim.scalar (1/2)).toLim
        (BLim.scalar (5/2)).toLim = ParametersSet.mk [(1:ℚ), 2] := by
  constructor
  · have key := (clip_correct_C6 (ParametersSet.mk [(0:ℚ), -1, 2, 3])
      (BLim.scalar (1/2)) (BLim.scalar (5/2)) trivial trivial
      (by intro i h; norm_num [BLim.component])).1 0 (by norm_num)
    simpa [BLim.component] using key
  · refine (clip_correct_C6 (ParametersSet.mk [(1:ℚ), 2])
      (BLim.scalar (1/2)) (BLim.scalar (5/2)) trivial trivial
      (by intro i h; norm_num [BLim.component])).2.2 ?_
    intro i h
    have : i = 0 ∨ i = 1 := by
      simp at h
      omega
    rcases this with h0 | h1 <;> subst_vars <;> norm_num [BLim.component]

/-- Counterexample to C3 as stated: with `softening_ratio = 0` a component
below `lower` is mapped to `lower` itself, not strictly below it; and for a
violation larger than `9e99` the softly clipped value is not
`lower + r * (v - lower)` because the `(v - lower)` term is clipped to
`-9e99` first. -/
theorem clip_softly_C3_counterexample :
    ((-1 : ℚ) < 0 ∧
      ¬ ((ParametersSet.mk [(-1 : ℚ)]).clip_softly (BLim.scalar 0) (BLim.scalar 1)
          0).values.getD 0 0 < 0) ∧
    (-(10 : ℚ) ^ 100 < 0 ∧
      ((ParametersSet.mk [(-(10 : ℚ) ^ 100)]).clip_softly (BLim.scalar 0) (BLim.scalar 1)
          1).values.getD 0 0 ≠ 0 + 1 * (-(10 : ℚ) ^ 100 - 0)) := by
  refine ⟨⟨by norm_num, ?_⟩, ⟨by norm_num, ?_⟩⟩ <;>
    norm_num [ParametersSet.clip_softly, ParametersSet.clipData, ParametersSet.toLimitArray,
      broadcastSub, BLim.toLim, big_number]

/-- Claim C3 (amended): for bounds `lower ≤ upper` and softening ratio `r`,
`clip_softly` leaves in-bounds components unchanged; a component `v < lower_i`
whose violation `lower_i - v` is at most `9e99` maps to exactly
`lower_i + r * (v - lower_i)`, strictly below `lower_i` when `0 < r`; and
symmetrically a component `v > upper_i` with `v - upper_i ≤ 9e99` maps to
`upper_i + r * (v - upper_i)`, strictly above `upper_i` when `0 < r`.
(The original claim, quantified over all ratios and magnitudes, fails: see
the counterexample.) -/
theorem clip_softly_C3 :
    ∀ (p : ParametersSet) (lower upper : BLim) (r : ℚ),
      lower.len_ok p.values.length → upper.len_ok p.values.length →
      (∀ i, i < p.values.length → lower.component i ≤ upper.component i) →
      ∀ i, i < p.values.length →
        (lower.component i ≤ p.values.getD i 0 →
          p.values.getD i 0 ≤ upper.component i →
          (p.clip_softly lower upper r).values.getD i 0 = p.values.getD i 0) ∧
        (p.values.getD i 0 < lower.component i →
          lower.component i - p.values.getD i 0 ≤ big_number →
          (p.clip_softly lower upper r).values.getD i 0 =
            lower.component i + r * (p.values.getD i 0 - lower.component i) ∧
          (0 < r → (p.clip_softly lower upper r).values.getD i 0 <
            lower.component i)) ∧
        (upper.component i < p.values.getD i 0 →
          p.values.getD i 0 - upper.component i ≤ big_number →
          (p.clip_softly lower upper r).values.getD i 0 =
            upper.component i + r * (p.values.getD i 0 - upper.component i) ∧
          (0 < r → upper.component i <
            (p.clip_softly lower upper r).values.getD i 0)) := by
  intro p lower upper r hlo hhi hle i h
  have key := clip_softly_getD p lower upper r hlo hhi h
  have hbig := big_number_pos
  refine ⟨?_, ?_, ?_⟩
  · intro h1 h2
    have e3 : min 0 (max (-big_number) (p.values.getD i 0 - lower.component i)) = 0 := by
      rw [max_eq_right (a := -big_number) (by linarith)]
      exact min_eq_left (by linarith)
    have e4 : min big_number (max 0 (p.values.getD i 0 - upper.component i)) = 0 := by
      rw [max_eq_left (b := p.values.getD i 0 - upper.component i) (by linarith)]
      exact min_eq_right hbig.le
    rw [key, min_eq_right h2, max_eq_right h1, e3, e4]
    ring
  · intro h1 h2
    have e0 : min (upper.component i) (p.values.getD i 0) = p.values.getD i 0 :=
      min_eq_right (by linarith [hle i h])
    have e3 : min 0 (max (-big_number) (p.values.getD i 0 - lower.component i)) =
        p.values.getD i 0 - lower.component i := by
      rw [max_eq_right (a := -big_number) (by linarith)]
      exact min_eq_right (by linarith)
    have e4 : min big_number (max 0 (p.values.getD i 0 - upper.component i)) = 0 := by
      rw [max_eq_left (b := p.values.getD i 0 - upper.component i)
        (by linarith [hle i h])]
      exact min_eq_right hbig.le
    have hval : (p.clip_softly lower upper r).values.getD i 0 =
        lower.component i + r * (p.values.getD i 0 - lower.component i) := by
      rw [key, e0, max_eq_left h1.le, e3, e4]
      ring
    refine ⟨hval, ?_⟩
    intro hr
    rw [hval]
    have : r * (p.values.getD i 0 - lower.component i) < 0 :=
      mul_neg_of_pos_of_neg hr (by linarith)
    linarith
  · intro h1 h2
    have e0 : min (upper.component i) (p.values.getD i 0) = upper.component i :=
      min_eq_left h1.le
    have e3 : min 0 (max (-big_number) (p.values.getD i 0 - lower.component i)) = 0 := by
      rw [max_eq_right (a := -big_number) (by linarith [hle i h])]
      exact min_eq_left (by linarith [hle i h])
    have e4 : min big_number (max 0 (p.values.getD i 0 - upper.component i)) =
        p.values.getD i 0 - upper.component i := by
      rw [max_eq_right (a := (0:ℚ)) (by linarith)]
      exact min_eq_right h2
    have hval : (p.clip_softly lower upper r).values.getD i 0 =
        upper.component i + r * (p.values.getD i 0 - upper.component i) := by
      rw [key, e0, max_eq_right (hle i h), e3, e4]
      ring
    refine ⟨hval, ?_⟩
    intro hr
    rw [hval]
    have : 0 < r * (p.values.getD i 0 - upper.component i) :=
      mul_pos hr (by linarith)
    linarith

/-- Witness for the amended C3 at `[3]` softly clipped to `[0, 1]` with
ratio `1/2`: the result is `1 + (1/2) * (3 - 1) = 2 > 1`. -/
theorem clip_softly_C3_witness :
    ((ParametersSet.mk [(3 : ℚ)]).clip_softly (BLim.scalar 0) (BLim.scalar 1)
        (1/2)).values.getD 0 0 = 1 + (1/2) * ((3 : ℚ) - 1) ∧
    (1 : ℚ) < ((ParametersSet.mk [(3 : ℚ)]).clip_softly (BLim.scalar 0) (BLim.scalar 1)
        (1/2)).values.getD 0 0 := by
  have key := ((clip_softly_C3 (ParametersSet.mk [(3 : ℚ)]) (BLim.scalar 0)
      (BLim.scalar 1) (1/2) trivial trivial
      (by intro i h; norm_num [BLim.component]) 0 (by norm_num)).2.2
    (by norm_num [BLim.component]) (by norm_num [BLim.component, big_number]))
  refine ⟨?_, ?_⟩
  · simpa [BLim.component] using key.1
  · simpa [BLim.component] using key.2 (by norm_num)

/-- Counterexample to C7 as stated: `change` with no `max_correction` is not
the identity for components of unrestricted magnitude — the missing bounds
are the sentinels `±9e99`, so `10^100` is clipped to `9e99`. -/
theorem change_no_limit_C7_counterexample :
    ((ParametersSet.mk [(0 : ℚ)]).change [10 ^ 100] Lim.none).values ≠
      [(10 : ℚ) ^ 100] := by
  norm_num [ParametersSet.change, ParametersSet.reduceChanges, ParametersSet.clipData,
    ParametersSet.toLimitArray, big_number]

/-- Claim C7 (amended): `change(new_values)` with no `max_correction` returns
`new_values` provided every component has absolute value at most the `9e99`
sentinel (beyond it the missing limits clip); a missing `lower` of `clip`
reduces it to the upper clamp provided the data and the upper bound are at
least `-9e99`; a missing `upper` reduces it to the lower clamp provided the
data is at most `9e99`. -/
theorem change_no_limit_C7 :
    (∀ (p : ParametersSet) (values : List ℚ),
      values.length = p.values.length →
      (∀ v ∈ values, |v| ≤ big_number) →
      (p.change values Lim.none).values = values) ∧
    (∀ (p : ParametersSet) (u : BLim),
      u.len_ok p.values.length →
      (∀ i, i < p.values.length → -big_number ≤ p.values.getD i 0) →
      (∀ i, i < p.values.length → -big_number ≤ u.component i) →
      ∀ i, i < p.values.length →
        (p.clip Lim.none u.toLim).values.getD i 0 =
          min (u.component i) (p.values.getD i 0)) ∧
    (∀ (p : ParametersSet) (l : BLim),
      l.len_ok p.values.length →
      (∀ i, i < p.values.length → p.values.getD i 0 ≤ big_number) →
      ∀ i, i < p.values.length →
        (p.clip l.toLim Lim.none).values.getD i 0 =
          max (l.component i) (p.values.getD i 0)) := by
  refine ⟨?_, ?_, ?_⟩
  · intro p values hv hmag
    have hlen : (p.change values Lim.none).values.length = values.length := by
      rw [hv]
      exact reduceChanges_length p values Lim.none trivial hv
    refine List.ext_getElem hlen ?_
    intro n h1 h2
    have h3 : n < p.values.length := by rw [← hv]; exact h2
    rw [← List.getD_eq_getElem _ 0 h1, ← List.getD_eq_getElem _ 0 h2]
    have key : (p.change values Lim.none).values.getD n 0 =
        max (-big_number) (min big_number (values.getD n 0)) :=
      clipData_getD p values Lim.none Lim.none trivial trivial hv h3
    have hmem : values.getD n 0 ∈ values := by
      rw [List.getD_eq_getElem _ 0 h2]
      exact List.getElem_mem h2
    have habs := abs_le.mp (hmag _ hmem)
    rw [key, min_eq_right habs.2, max_eq_right habs.1]
  · intro p u hu hdata hub i h
    have key : (p.clip Lim.none u.toLim).values.getD i 0 =
        max (-big_number) (min (u.component i) (p.values.getD i 0)) := by
      rw [clip_getD p Lim.none u.toLim trivial (BLim.toLim_len_ok hu) h,
        BLim.toLim_component]
      rfl
    rw [key, max_eq_right (le_min (hub i h) (hdata i h))]
  · intro p l hl hdata i h
    have key : (p.clip l.toLim Lim.none).values.getD i 0 =
        max (l.component i) (min big_number (p.values.getD i 0)) := by
      rw [clip_getD p l.toLim Lim.none (BLim.toLim_len_ok hl) trivial h,
        BLim.toLim_component]
      rfl
    rw [key, min_eq_right (hdata i h)]

/-- Witness for the amended C7: `change` with no `max_correction` is the
identity on `[1/2, -3]`, and the one-sided clips reduce to a single clamp. -/
theorem change_no_limit_C7_witness :
    ((ParametersSet.mk [(1 : ℚ), 1]).change [(1 : ℚ)/2, -3] Lim.none).values =
      [(1 : ℚ)/2, -3] ∧
    ((ParametersSet.mk [(5 : ℚ)]).clip Lim.none (BLim.scalar 2).toLim).values.getD 0 0 =
      min (2 : ℚ) 5 := by
  constructor
  · exact change_no_limit_C7.1 (ParametersSet.mk [(1 : ℚ), 1]) [(1 : ℚ)/2, -3]
      (by norm_num) (by
        intro v hv
        rw [abs_le]
        simp at hv
        rcases hv with h1 | h2 <;> subst_vars <;> constructor <;> norm_num [big_number])
  · have key := change_no_limit_C7.2.1 (ParametersSet.mk [(5 : ℚ)]) (BLim.scalar 2)
      trivial (by
        intro i h
        simp at h
        have h0 : i = 0 := by omega
        subst h0
        norm_num [big_number])
      (by intro i h; norm_num [BLim.component, big_number]) 0 (by norm_num)
    simpa [BLim.component] using key

/-- Length of the engine's scaled candidate. -/
theorem scaledCandidate_length (e : FullyStressDesignUpdater)
    (initial : ParametersSet) (field : List ℚ)
    (hf : field.length = initial.values.length)
    (hmc : e.max_correction.len_ok initial.values.length) :
    (e.scaledCandidate initial field).values.length = initial.values.length := by
  exact reduceChanges_length initial _ _ hmc
    (by simp [List.length_zipWith, hf])

/-- Counterexample to C1 as stated: the final `change` of
`update_parameters` passes no `max_correction`, so with `max_correction =
0.1`, `current = [0.5]`, `field = [1]` and a root-finder result `λ = 0.5`,
the returned component `0.999999` is `0.499999` away from `current` — far
beyond `0.1`. -/
theorem update_parameters_C1_counterexample :
    ¬ |((FullyStressDesignUpdater.make (fun _ => 0) (Lim.scalar (1/10))
        Option.none).updateParameters (1/2) (ParametersSet.mk [(1:ℚ)/2])
        [1]).values.getD 0 0 - 1/2| ≤ (1/10 : ℚ) := by
  have hval : ((FullyStressDesignUpdater.make (fun _ => 0) (Lim.scalar (1/10))
      Option.none).updateParameters (1/2) (ParametersSet.mk [(1:ℚ)/2])
      [1]).values.getD 0 0 = 999999/1000000 := by
    norm_num [FullyStressDesignUpdater.make, FullyStressDesignUpdater.updateParameters,
      FullyStressDesignUpdater.scaledCandidate, ParametersSet.change,
      ParametersSet.reduceChanges, ParametersSet.clipData, ParametersSet.toLimitArray,
      ParametersSet.clip, BLim.toLim, small_number, big_number]
  rw [hval]
  rw [abs_le]
  norm_num

/-- Claim C1 (amended): with a nonnegative scalar or per-component
`max_correction` configured, the delta limit bounds the INTERMEDIATE scaled
candidate `current.change(current.values ⊙ |field|, max_correction)`
componentwise by `max_correction`; the final result is
`current.change(updated.values / λ)` with NO `max_correction` followed by the
hard clip, so the overall step from `current` to the returned vector is not
bounded by `max_correction` (see the counterexample). -/
theorem update_parameters_delta_C1 :
    ∀ (e : FullyStressDesignUpdater) (b : BLim) (initial : ParametersSet)
      (field : List ℚ) (lam : ℚ),
      e.max_correction = b.toLim →
      b.len_ok initial.values.length →
      field.length = initial.values.length →
      (∀ i, i < initial.values.length → 0 ≤ b.component i) →
      (∀ i, i < initial.values.length →
        |(e.scaledCandidate initial field).values.getD i 0 -
          initial.values.getD i 0| ≤ b.component i) ∧
      e.updateParameters lam initial field =
        (initial.change ((e.scaledCandidate initial field).values.map
          (fun x => x / lam)) Lim.none).clip e.bounds.1.toLim e.bounds.2.toLim := by
  intro e b initial field lam hmc hb hf hnn
  constructor
  · intro i h
    have hres : (e.scaledCandidate initial field).values.getD i 0 =
        max (initial.values.getD i 0 - b.component i)
          (min (initial.values.getD i 0 + b.component i)
            ((List.zipWith (fun x y => x * y) initial.values
              (field.map (fun x => |x|))).getD i 0)) := by
      show (initial.reduceChanges _ e.max_correction).getD i 0 = _
      rw [hmc]
      exact reduceChanges_getD_of_BLim initial _ b hb
        (by simp [List.length_zipWith, hf]) h
    have h1 : initial.values.getD i 0 - b.component i ≤
        (e.scaledCandidate initial field).values.getD i 0 := by
      rw [hres]; exact le_max_left _ _
    have h2 : (e.scaledCandidate initial field).values.getD i 0 ≤
        initial.values.getD i 0 + b.component i := by
      rw [hres]
      exact max_le (by linarith [hnn i h]) (min_le_left _ _)
    exact abs_le.mpr ⟨by linarith, by linarith⟩
  · rfl

/-- Witness for the amended C1 at `current = [1/2]`, `field = [30]`,
scalar `max_correction = 1/10`. -/
theorem update_parameters_delta_C1_witness :
    |((FullyStressDesignUpdater.make (fun _ => 0) (Lim.scalar (1/10))
        Option.none).scaledCandidate (ParametersSet.mk [(1:ℚ)/2])
        [30]).values.getD 0 0 - (ParametersSet.mk [(1:ℚ)/2]).values.getD 0 0| ≤
      (1/10 : ℚ) := by
  have key := (update_parameters_delta_C1
    (FullyStressDesignUpdater.make (fun _ => 0) (Lim.scalar (1/10)) Option.none)
    (BLim.scalar (1/10)) (ParametersSet.mk [(1:ℚ)/2]) [30] 1 rfl trivial
    (by norm_num) (by intro i h; norm_num [BLim.component])).1 0 (by norm_num)
  simpa [BLim.component] using key

/-- Claim C4: the vector returned by `update_parameters` lies componentwise
within the configured hard bounds `[lower_i, upper_i]` (given `lower ≤ upper`
componentwise), and an engine constructed without bounds uses
`(1e-6, 1 - 1e-6)`. -/
theorem update_parameters_bounds_C4 :
    (∀ (vol : List ℚ → ℚ) (mc : Lim) (lo hi : BLim) (lam : ℚ)
      (initial : ParametersSet) (field : List ℚ),
      field.length = initial.values.length →
      mc.len_ok initial.values.length →
      lo.len_ok initial.values.length →
      hi.len_ok initial.values.length →
      (∀ i, i < initial.values.length → lo.component i ≤ hi.component i) →
      ∀ i, i < initial.values.length →
        lo.component i ≤
          ((FullyStressDesignUpdater.mk vol mc (lo, hi)).updateParameters lam
            initial field).values.getD i 0 ∧
        ((FullyStressDesignUpdater.mk vol mc (lo, hi)).updateParameters lam
            initial field).values.getD i 0 ≤ hi.component i) ∧
    (∀ (vol : List ℚ → ℚ) (mc : Lim),
      (FullyStressDesignUpdater.make vol mc Option.none).bounds =
        (BLim.scalar small_number, BLim.scalar (1 - small_number))) := by
  constructor
  · intro vol mc lo hi lam initial field hf hmc hlo hhi hle i h
    set e := FullyStressDesignUpdater.mk vol mc (lo, hi) with he
    set q := initial.change ((e.scaledCandidate initial field).values.map
      (fun x => x / lam)) Lim.none with hq
    have hscale : (e.scaledCandidate initial field).values.length =
        initial.values.length := scaledCandidate_length e initial field hf hmc
    have hqlen : q.values.length = initial.values.length := by
      rw [hq]
      exact reduceChanges_length initial _ Lim.none trivial (by simp [hscale])
    have hq2 : i < q.values.length := by rw [hqlen]; exact h
    have hlo2 : lo.len_ok q.values.length := by
      rw [hqlen]; exact hlo
    have hhi2 : hi.len_ok q.values.length := by
      rw [hqlen]; exact hhi
    have hres : (e.updateParameters lam initial field).values.getD i 0 =
        max (lo.component i) (min (hi.component i) (q.values.getD i 0)) := by
      show (q.clip e.bounds.1.toLim e.bounds.2.toLim).values.getD i 0 = _
      rw [clip_getD q _ _ (BLim.toLim_len_ok hlo2) (BLim.toLim_len_ok hhi2) hq2,
        BLim.toLim_component, BLim.toLim_component]
    rw [hres]
    exact ⟨le_max_left _ _, max_le (hle i h) (min_le_left _ _)⟩
  · intro vol mc
    rfl

/-- Witness for C4: with bounds `[1/10, 9/10]`, `current = [1/2]`,
`field = [4]` and `λ = 1`, the returned component lies within the bounds. -/
theorem update_parameters_bounds_C4_witness :
    1/10 ≤ ((FullyStressDesignUpdater.mk (fun _ => 0) Lim.none
        (BLim.scalar (1/10), BLim.scalar (9/10))).updateParameters 1
        (ParametersSet.mk [(1:ℚ)/2]) [4]).values.getD 0 0 ∧
    ((FullyStressDesignUpdater.mk (fun _ => 0) Lim.none
        (BLim.scalar (1/10), BLim.scalar (9/10))).updateParameters 1
        (ParametersSet.mk [(1:ℚ)/2]) [4]).values.getD 0 0 ≤ 9/10 := by
  have key := (update_parameters_bounds_C4.1 (fun _ => 0) Lim.none
    (BLim.scalar (1/10)) (BLim.scalar (9/10)) 1 (ParametersSet.mk [(1:ℚ)/2]) [4]
    (by norm_num) trivial trivial trivial
    (by intro i h; norm_num [BLim.component])) 0 (by norm_num)
  simpa [BLim.component] using key

theorem zipWith_all_eq : ∀ (a b : List ℚ), a.length = b.length →
    (((List.zipWith (fun x y => decide (x = y)) a b).all id) = true ↔ a = b) := by
  intro a
  induction a with
  | nil =>
      intro b h
      cases b with
      | nil => simp
      | cons y ys => simp at h
  | cons x xs ih =>
      intro b h
      cases b with
      | nil => simp at h
      | cons y ys =>
          have h2 : xs.length = ys.length := by simpa using h
          simp [List.all_cons, ih ys h2]

/-- Claim C8: `update_parameters` depends on the field only through its
componentwise absolute value — in particular it is invariant under negating
the field — because the scaled candidate multiplies `current.values` by
`|field|` and the root-finder input (the candidate) is likewise unchanged. -/
theorem update_parameters_field_abs_C8 :
    (∀ (e : FullyStressDesignUpdater) (lam : ℚ) (initial : ParametersSet)
      (f g : List ℚ),
      f.map (fun x => |x|) = g.map (fun x => |x|) →
      e.scaledCandidate initial f = e.scaledCandidate initial g ∧
      e.updateParameters lam initial f = e.updateParameters lam initial g) ∧
    (∀ (e : FullyStressDesignUpdater) (lam : ℚ) (initial : ParametersSet)
      (field : List ℚ),
      e.updateParameters lam initial field =
        e.updateParameters lam initial (field.map (fun x => -x))) := by
  have habs : ∀ (e : FullyStressDesignUpdater) (lam : ℚ) (initial : ParametersSet)
      (f g : List ℚ),
      f.map (fun x => |x|) = g.map (fun x => |x|) →
      e.scaledCandidate initial f = e.scaledCandidate initial g ∧
      e.updateParameters lam initial f = e.updateParameters lam initial g := by
    intro e lam initial f g hfg
    have hcand : e.scaledCandidate initial f = e.scaledCandidate initial g := by
      unfold FullyStressDesignUpdater.scaledCandidate
      rw [hfg]
    refine ⟨hcand, ?_⟩
    show (initial.change ((e.scaledCandidate initial f).values.map _) _).clip _ _ = _
    rw [hcand]
    rfl
  refine ⟨habs, ?_⟩
  intro e lam initial field
  exact (habs e lam initial field (field.map (fun x => -x))
    (by simp [List.map_map, Function.comp_def, abs_neg])).2

/-- Witness for C8: `field = [3, -1]` and its negation `[-3, 1]` give the
same update. -/
theorem update_parameters_field_abs_C8_witness :
    (FullyStressDesignUpdater.make (fun _ => 0) Lim.none
        Option.none).updateParameters 1 (ParametersSet.mk [(1:ℚ)/2, 1/2]) [3, -1] =
      (FullyStressDesignUpdater.make (fun _ => 0) Lim.none
        Option.none).updateParameters 1 (ParametersSet.mk [(1:ℚ)/2, 1/2]) [-3, 1] := by
  exact (update_parameters_field_abs_C8.1
    (FullyStressDesignUpdater.make (fun _ => 0) Lim.none Option.none) 1
    (ParametersSet.mk [(1:ℚ)/2, 1/2]) [3, -1] [-3, 1] (by norm_num)).2

/-- Claim C9: `==` between two equal-length `ParameterVector`s is `True`
exactly when all corresponding components are equal, and comparing a
`ParameterVector` against a non-vector raises (`NotImplementedError`) rather
than returning `False`. -/
theorem pyEq_C9 :
    (∀ p q : ParametersSet, p.values.length = q.values.length →
      (p.pyEq (PyOperand.pset q) = Except.ok true ↔ p.values = q.values)) ∧
    (∀ p : ParametersSet, p.pyEq PyOperand.nonpset = Except.error ()) := by
  constructor
  · intro p q h
    show Except.ok (npAllEq p.values q.values) = Except.ok true ↔ _
    rw [npAllEq, if_pos h]
    constructor
    · intro hok
      exact (zipWith_all_eq p.values q.values h).mp (by simpa using hok)
    · intro hv
      have := (zipWith_all_eq p.values q.values h).mpr hv
      simp [this]
  · intro p
    rfl

/-- Witness for C9: `[1, 2] == [1, 2]` is `True`, `[1, 2] == [1, 3]` is not,
and comparison against a non-vector errors. -/
theorem pyEq_C9_witness :
    (ParametersSet.mk [(1:ℚ), 2]).pyEq
        (PyOperand.pset (ParametersSet.mk [(1:ℚ), 2])) = Except.ok true ∧
    ¬ (ParametersSet.mk [(1:ℚ), 2]).pyEq
        (PyOperand.pset (ParametersSet.mk [(1:ℚ), 3])) = Except.ok true ∧
    (ParametersSet.mk [(1:ℚ), 2]).pyEq PyOperand.nonpset = Except.error () := by
  refine ⟨?_, ?_, pyEq_C9.2 (ParametersSet.mk [(1:ℚ), 2])⟩
  · exact (pyEq_C9.1 (ParametersSet.mk [(1:ℚ), 2]) (ParametersSet.mk [(1:ℚ), 2])
      rfl).mpr rfl
  · intro hcontra
    have := (pyEq_C9.1 (ParametersSet.mk [(1:ℚ), 2]) (ParametersSet.mk [(1:ℚ), 3])
      rfl).mp hcontra
    simp at this

/-- Claim C2: whenever `solve()` terminates (within any amount of fuel — the
source loop is uncapped), the returned vector is the first
`next_k = step(current_k)` of the iteration sequence whose squared change
norm is below `accuracy²` (the encoding of `‖next − current‖₂ < accuracy`
over `ℚ`, together with `0 < accuracy`); every earlier step's change was
`≥ accuracy`. -/
theorem solve_first_convergence_C2 :
    ∀ (f : List ℚ → List ℚ) (upd : ParametersSet → List ℚ → ParametersSet)
      (accuracy : ℚ) (fuel : ℕ) (init st r : ParametersSet),
      Optimizer.solveAux f upd accuracy fuel init = some (st, r) →
      ∃ k, st = Optimizer.trajectory f upd init k ∧
        r = Optimizer.trajectory f upd init (k + 1) ∧
        0 < accuracy ∧
        normSq (List.zipWith (fun a b => a - b)
            (Optimizer.trajectory f upd init (k + 1)).values
            (Optimizer.trajectory f upd init k).values) < accuracy * accuracy ∧
        ∀ j, j < k →
          accuracy * accuracy ≤
            normSq (List.zipWith (fun a b => a - b)
              (Optimizer.trajectory f upd init (j + 1)).values
              (Optimizer.trajectory f upd init j).values) := by
  intro f upd accuracy fuel
  induction fuel with
  | zero =>
      intro init st r h
      simp [Optimizer.solveAux] at h
  | succ fuel ih =>
      intro init st r h
      simp only [Optimizer.solveAux] at h
      by_cases hc : checkConvergence accuracy init.values
          (Optimizer.step f upd init).values = true
      · rw [if_pos hc] at h
        simp only [Option.some.injEq, Prod.mk.injEq] at h
        obtain ⟨hst, hr⟩ := h
        simp only [checkConvergence, decide_eq_true_eq] at hc
        refine ⟨0, hst.symm, ?_, hc.1, ?_, ?_⟩
        · rw [← hr]
          rfl
        · show normSq (List.zipWith _
            (Optimizer.step f upd (Optimizer.trajectory f upd init 0)).values
            (Optimizer.trajectory f upd init 0).values) < _
          exact hc.2
        · intro j hj
          omega
      · rw [if_neg hc] at h
        obtain ⟨k, h1, h2, h3, h4, h5⟩ := ih (Optimizer.step f upd init) st r h
        refine ⟨k + 1, ?_, ?_, h3, ?_, ?_⟩
        · rw [trajectory_succ_shift]
          exact h1
        · rw [trajectory_succ_shift]
          exact h2
        · rw [trajectory_succ_shift f upd init (k + 1), trajectory_succ_shift f upd init k]
          exact h4
        · intro j hj
          cases j with
          | zero =>
              simp only [checkConvergence, decide_eq_true_eq] at hc
              push_neg at hc
              have hle := hc h3
              show accuracy * accuracy ≤ normSq (List.zipWith _
                (Optimizer.step f upd (Optimizer.trajectory f upd init 0)).values
                (Optimizer.trajectory f upd init 0).values)
              exact hle
          | succ j =>
              have hj2 : j < k := by omega
              have := h5 j hj2
              rw [trajectory_succ_shift f upd init (j + 1),
                trajectory_succ_shift f upd init j]
              exact this

/-- Witness for C2: with the identity update the loop converges on the first
iteration and `solve` returns `next_0 = trajectory 1`. -/
theorem solve_first_convergence_C2_witness :
    ∃ k, (ParametersSet.mk [(0:ℚ)]) =
        Optimizer.trajectory (fun v => v) (fun p _ => p)
          (ParametersSet.mk [(0:ℚ)]) k ∧
      (ParametersSet.mk [(0:ℚ)]) =
        Optimizer.trajectory (fun v => v) (fun p _ => p)
          (ParametersSet.mk [(0:ℚ)]) (k + 1) ∧
      (0:ℚ) < 1 ∧
      normSq (List.zipWith (fun a b => a - b)
          (Optimizer.trajectory (fun v => v) (fun p _ => p)
            (ParametersSet.mk [(0:ℚ)]) (k + 1)).values
          (Optimizer.trajectory (fun v => v) (fun p _ => p)
            (ParametersSet.mk [(0:ℚ)]) k).values) < 1 * 1 ∧
      ∀ j, j < k →
        (1:ℚ) * 1 ≤
          normSq (List.zipWith (fun a b => a - b)
            (Optimizer.trajectory (fun v => v) (fun p _ => p)
              (ParametersSet.mk [(0:ℚ)]) (j + 1)).values
            (Optimizer.trajectory (fun v => v) (fun p _ => p)
              (ParametersSet.mk [(0:ℚ)]) j).values) := by
  refine solve_first_convergence_C2 (fun v => v) (fun p _ => p) 1 1
    (ParametersSet.mk [(0:ℚ)]) (ParametersSet.mk [(0:ℚ)])
    (ParametersSet.mk [(0:ℚ)]) ?_
  simp [Optimizer.solveAux, Optimizer.step, checkConvergence, normSq]

/-- Claim C10: when `solve()` returns `r`, the optimizer's internal
`_parameters_set` (exposed by the `parameters` property) is still the
predecessor from which `r` was computed — the state is not advanced on the
terminal step — so `parameters` differs from `r.values` whenever the final
step's change is nonzero. -/
theorem solve_keeps_predecessor_C10 :
    ∀ (f : List ℚ → List ℚ) (upd : ParametersSet → List ℚ → ParametersSet)
      (accuracy : ℚ) (fuel : ℕ) (init st r : ParametersSet),
      Optimizer.solveAux f upd accuracy fuel init = some (st, r) →
      Optimizer.parameters st = st.values ∧
      r = Optimizer.step f upd st ∧
      (normSq (List.zipWith (fun a b => a - b) r.values st.values) ≠ 0 →
        Optimizer.parameters st ≠ r.values) := by
  intro f upd accuracy fuel
  induction fuel with
  | zero =>
      intro init st r h
      simp [Optimizer.solveAux] at h
  | succ fuel ih =>
      intro init st r h
      simp only [Optimizer.solveAux] at h
      by_cases hc : checkConvergence accuracy init.values
          (Optimizer.step f upd init).values = true
      · rw [if_pos hc] at h
        simp only [Option.some.injEq, Prod.mk.injEq] at h
        obtain ⟨hst, hr⟩ := h
        refine ⟨rfl, ?_, ?_⟩
        · rw [← hst]
          exact hr.symm
        · intro hnz heq
          apply hnz
          have hv : r.values = st.values := heq.symm
          rw [hv]
          exact normSq_zipWith_sub_self st.values
      · rw [if_neg hc] at h
        exact ih (Optimizer.step f upd init) st r h

/-- Witness for C10: a halving update converges immediately for a loose
tolerance and `parameters` still shows the predecessor `[1]`, not the
returned `[1/2]`. -/
theorem solve_keeps_predecessor_C10_witness :
    Optimizer.parameters (ParametersSet.mk [(1:ℚ)]) ≠ [(1:ℚ)/2] := by
  have h : Optimizer.solveAux (fun v => v)
      (fun p _ => ParametersSet.mk (p.values.map (fun x => x / 2))) 1 1
      (ParametersSet.mk [(1:ℚ)]) =
      some (ParametersSet.mk [(1:ℚ)], ParametersSet.mk [(1:ℚ)/2]) := by
    simp only [Optimizer.solveAux, Optimizer.step, checkConvergence, normSq]
    norm_num
  exact (solve_keeps_predecessor_C10 (fun v => v)
    (fun p _ => ParametersSet.mk (p.values.map (fun x => x / 2))) 1 1
    (ParametersSet.mk [(1:ℚ)]) (ParametersSet.mk [(1:ℚ)])
    (ParametersSet.mk [(1:ℚ)/2]) h).2.2 (by norm_num [normSq])

end Toptim
